import Mathlib

/-!
Verification of the smart-contract audit bot core.

This file gives a shallow embedding, in Lean 4, of the pure core of the
repository: the regex-based Solidity structural extractor
(`SolidityParser.extract_metadata`, `SolidityParser.identify_security_patterns`
in `app/ingestion_sol.py`), the ingestion/deduplication pipeline
(`ContractIngestionService.ingest_contract`, `search_contracts`), and the
conversational orchestrator (`SmartContractAuditBot.chat` and friends in
`app/chatbot_sol.py`).  External collaborators (the embedding model, the
Pinecone vector store, the chat-completion model, the langchain text splitter
and the MD5 digest) are modelled as explicit parameters or by the behavioural
contract the code relies on.  Python regular expressions are translated into
executable character-list matchers that follow the leftmost, greedy,
backtracking semantics of the `re` module on the concrete patterns appearing
in the source.
-/

namespace AuditBot

/-! ## Character classes and scanning primitives

Python's `\s` class (over ASCII) and `\w` class, plus the leftmost-search and
`findall`-style scanning loops of the `re` module.
-/

/-- The ASCII whitespace characters matched by the regex class `\s`
(and stripped by Python's `str.strip`). -/
def isPySpace (c : Char) : Bool :=
  c = ' ' || c = '\t' || c = '\n' || c = '\r' || c = '\x0b' || c = '\x0c'

/-- The characters matched by the regex class `\w` (ASCII range). -/
def isWordChar (c : Char) : Bool :=
  (('a' ≤ c && c ≤ 'z') || ('A' ≤ c && c ≤ 'Z') || ('0' ≤ c && c ≤ '9') || c = '_')

/-- Python `str.strip()`: remove leading and trailing whitespace. -/
def pyStrip (l : List Char) : List Char :=
  ((l.dropWhile isPySpace).reverse.dropWhile isPySpace).reverse

/-- Python `str.lower()` over the characters of a string. -/
def lowerChars (s : String) : List Char :=
  s.data.map Char.toLower

/-- Consume the literal pattern `pat` from the front of `l`; return the rest
on success.  This is the semantics of a literal inside a Python regex. -/
def eatPref : List Char → List Char → Option (List Char)
  | [], l => some l
  | _ :: _, [] => none
  | p :: ps, c :: cs => if p = c then eatPref ps cs else none

/-- `re.search`: scan positions left to right and return the first position
where the single-position matcher `m` succeeds. -/
def searchFirst (m : List Char → Option α) : List Char → Option α
  | [] => m []
  | c :: rest =>
    match m (c :: rest) with
    | some g => some g
    | none => searchFirst m rest

/-- Does the single-position Boolean matcher `p` succeed at some suffix?
This is `re.search` specialised to a Boolean result. -/
def existsAt (p : List Char → Bool) : List Char → Bool
  | [] => p []
  | c :: rest => p (c :: rest) || existsAt p rest

/-- Substring test at one position: `pat` is a literal prefix of `l`. -/
def subAt (pat : List Char) (l : List Char) : Bool :=
  (eatPref pat l).isSome

/-- Case-preserving substring search, the semantics of `re.search` on a
regex that is a single literal. -/
def containsSub (pat : List Char) (l : List Char) : Bool :=
  existsAt (subAt pat) l

/-- `re.findall`: scan positions left to right; at each match emit the
captured group and resume after the end of the match (our matchers always
consume at least one character, so the resume point strictly advances). -/
def scanAll (m : List Char → Option (List Char × List Char)) : List Char → List (List Char)
  | [] =>
    match m [] with
    | some (g, _) => [g]
    | none => []
  | c :: rest =>
    match m (c :: rest) with
    | some (g, rest') =>
      if _h : rest'.length < rest.length + 1 then
        g :: scanAll m rest'
      else
        g :: scanAll m rest
    | none => scanAll m rest
termination_by l => l.length

/-! ## The structural extractor (`SolidityParser`)

Each Python regex of `ingestion_sol.py` becomes one positional matcher.
-/

/-- One position of `pragma\s+solidity\s+([^;]+);` (the `re.search` in
`extract_metadata`).  Greedy `\s+` before the group backtracks one space when
the group would otherwise be empty, exactly as the `re` engine does. -/
def pragmaAt (l : List Char) : Option (List Char) :=
  match eatPref "pragma".data l with
  | none => none
  | some l1 =>
    let n1 := (l1.takeWhile isPySpace).length
    if n1 = 0 then none else
    match eatPref "solidity".data (l1.drop n1) with
    | none => none
    | some l2 =>
      let n2 := (l2.takeWhile isPySpace).length
      if n2 = 0 then none else
      let rest := l2.drop n2
      let body := rest.takeWhile (fun c => c ≠ ';')
      if body.isEmpty then
        if 2 ≤ n2 ∧ rest.head? = some ';' then
          some ((l2.drop (n2 - 1)).take 1)
        else none
      else
        if (rest.drop body.length).head? = some ';' then some body else none

/-- One position of `import\s+[^;]+;` (full match text and rest), used by
`re.findall` in `extract_metadata`.  The match extends to the first `;`;
it needs at least one whitespace character after `import` and at least two
characters between `import` and the `;`. -/
def importAt (l : List Char) : Option (List Char × List Char) :=
  match eatPref "import".data l with
  | none => none
  | some l1 =>
    let u := l1.takeWhile (fun c => c ≠ ';')
    match u.head? with
    | none => none
    | some c =>
      if isPySpace c ∧ 2 ≤ u.length ∧ (l1.drop u.length).head? = some ';' then
        some ("import".data ++ u ++ [';'], l1.drop (u.length + 1))
      else none

/-- One position of `contract\s+(\w+).*?\{` (capture and rest after the
match).  The lazy `.*?\{` ends the match at the first `\x7b` after the
captured word. -/
def contractAt (l : List Char) : Option (List Char × List Char) :=
  match eatPref "contract".data l with
  | none => none
  | some l1 =>
    let n1 := (l1.takeWhile isPySpace).length
    if n1 = 0 then none else
    let w := (l1.drop n1).takeWhile isWordChar
    if w.isEmpty then none else
    let rest := (l1.drop n1).drop w.length
    let skip := rest.takeWhile (fun c => c ≠ '\x7b')
    if (rest.drop skip.length).head? = some '\x7b' then
      some (w, rest.drop (skip.length + 1))
    else none

/-! Backtracking combinators for the one regex of the parser whose optional
groups genuinely need the `re` engine's backtracking
(`function\s+(\w+)\s*\([^)]*\)\s*(?:public|private|internal|external)?\s*(?:view|pure|payable)?\s*(?:returns\s*\([^)]*\))?\s*\{`).
A matcher returns the list of possible rests in the engine's exploration
order; the first full completion is the match the engine reports. -/

/-- All rests after a literal. -/
def pLit (pat : List Char) (l : List Char) : List (List Char) :=
  match eatPref pat l with
  | some r => [r]
  | none => []

/-- Sequencing of backtracking matchers. -/
def pSeq (a b : List Char → List (List Char)) (l : List Char) : List (List Char) :=
  (a l).flatMap b

/-- Ordered alternation. -/
def pAlt (a b : List Char → List (List Char)) (l : List Char) : List (List Char) :=
  a l ++ b l

/-- Greedy optional group `(?:...)?`: try the group first, then skip it. -/
def pOpt (a : List Char → List (List Char)) (l : List Char) : List (List Char) :=
  a l ++ [l]

/-- Greedy `C*` over a character class: longest rest first, down to zero. -/
def pStar (p : Char → Bool) (l : List Char) : List (List Char) :=
  let k := (l.takeWhile p).length
  (List.range (k + 1)).map (fun j => l.drop (k - j))

/-- The part of the function regex after the captured name. -/
def funcTail : List Char → List (List Char) :=
  pSeq (pStar isPySpace) <|
  pSeq (pLit ['(']) <|
  pSeq (pStar (fun c => c ≠ ')')) <|
  pSeq (pLit [')']) <|
  pSeq (pStar isPySpace) <|
  pSeq (pOpt (pAlt (pLit "public".data)
        (pAlt (pLit "private".data) (pAlt (pLit "internal".data) (pLit "external".data))))) <|
  pSeq (pStar isPySpace) <|
  pSeq (pOpt (pAlt (pLit "view".data) (pAlt (pLit "pure".data) (pLit "payable".data)))) <|
  pSeq (pStar isPySpace) <|
  pSeq (pOpt (pSeq (pLit "returns".data) <|
              pSeq (pStar isPySpace) <|
              pSeq (pLit ['(']) <|
              pSeq (pStar (fun c => c ≠ ')')) (pLit [')']))) <|
  pSeq (pStar isPySpace) (pLit ['\x7b'])

/-- One position of the function regex (capture and rest).  The leading
`function\s+(\w+)` part is deterministic: `\s` and `\w` are disjoint and the
tail cannot start with a word character, so the greedy word run is the only
candidate capture. -/
def functionAt (l : List Char) : Option (List Char × List Char) :=
  match eatPref "function".data l with
  | none => none
  | some l1 =>
    let n1 := (l1.takeWhile isPySpace).length
    if n1 = 0 then none else
    let w := (l1.drop n1).takeWhile isWordChar
    if w.isEmpty then none else
    match funcTail ((l1.drop n1).drop w.length) with
    | r :: _ => some (w, r)
    | [] => none

/-- One position of `modifier\s+(\w+)\s*\([^)]*\)\s*\{`. -/
def modifierAt (l : List Char) : Option (List Char × List Char) :=
  match eatPref "modifier".data l with
  | none => none
  | some l1 =>
    let n1 := (l1.takeWhile isPySpace).length
    if n1 = 0 then none else
    let w := (l1.drop n1).takeWhile isWordChar
    if w.isEmpty then none else
    let r1 := ((l1.drop n1).drop w.length).dropWhile isPySpace
    match eatPref ['('] r1 with
    | none => none
    | some r2 =>
      let body := r2.takeWhile (fun c => c ≠ ')')
      match eatPref [')'] (r2.drop body.length) with
      | none => none
      | some r3 =>
        match eatPref ['\x7b'] (r3.dropWhile isPySpace) with
        | none => none
        | some r4 => some (w, r4)

/-- One position of `event\s+(\w+)\s*\([^)]*\);`. -/
def eventAt (l : List Char) : Option (List Char × List Char) :=
  match eatPref "event".data l with
  | none => none
  | some l1 =>
    let n1 := (l1.takeWhile isPySpace).length
    if n1 = 0 then none else
    let w := (l1.drop n1).takeWhile isWordChar
    if w.isEmpty then none else
    let r1 := ((l1.drop n1).drop w.length).dropWhile isPySpace
    match eatPref ['('] r1 with
    | none => none
    | some r2 =>
      let body := r2.takeWhile (fun c => c ≠ ')')
      match eatPref [')'] (r2.drop body.length) with
      | none => none
      | some r3 =>
        match eatPref [';'] r3 with
        | none => none
        | some r4 => some (w, r4)

/-- The metadata dictionary built by `SolidityParser.extract_metadata`. -/
structure ContractMetadata where
  contracts : List String
  functions : List String
  modifiers : List String
  events : List String
  imports : List String
  pragma : Option String
deriving Repr, DecidableEq

/-- `SolidityParser.extract_metadata`: `re.search` for the pragma (group
stripped), `re.findall` for imports (full matches, stripped), contracts,
functions, modifiers and events (captured names). -/
def extract_metadata (content : String) : ContractMetadata :=
  let L := content.data
  { pragma := (searchFirst pragmaAt L).map (fun g => String.mk (pyStrip g))
    imports := (scanAll importAt L).map (fun g => String.mk (pyStrip g))
    contracts := (scanAll contractAt L).map String.mk
    functions := (scanAll functionAt L).map String.mk
    modifiers := (scanAll modifierAt L).map String.mk
    events := (scanAll eventAt L).map String.mk }

/-! ### Security pattern checks (`identify_security_patterns`)

All seven regexes are searched with `re.IGNORECASE`; we lower the input and
match lowercase literals, which is equivalent over ASCII. -/

/-- `nonReentrant|ReentrancyGuard` on the lowered content. -/
def reentrancyGuardB (L : List Char) : Bool :=
  containsSub "nonreentrant".data L || containsSub "reentrancyguard".data L

/-- One position of `require\s*\(\s*msg\.sender` on the lowered content. -/
def reqMsgSenderAt (l : List Char) : Bool :=
  match eatPref "require".data l with
  | none => false
  | some l1 =>
    match eatPref ['('] (l1.dropWhile isPySpace) with
    | none => false
    | some l2 => (eatPref "msg.sender".data (l2.dropWhile isPySpace)).isSome

/-- `onlyOwner|onlyAdmin|require\s*\(\s*msg\.sender` on the lowered content. -/
def accessControlB (L : List Char) : Bool :=
  containsSub "onlyowner".data L || containsSub "onlyadmin".data L || existsAt reqMsgSenderAt L

/-- `SafeMath|\.add\(|\.sub\(|\.mul\(|\.div\(` on the lowered content. -/
def safeMathB (L : List Char) : Bool :=
  containsSub "safemath".data L || containsSub ".add(".data L || containsSub ".sub(".data L ||
    containsSub ".mul(".data L || containsSub ".div(".data L

/-- `\.call\(|\.delegatecall\(|\.staticcall\(` on the lowered content. -/
def externalCallsB (L : List Char) : Bool :=
  containsSub ".call(".data L || containsSub ".delegatecall(".data L ||
    containsSub ".staticcall(".data L

/-- One position of `now\s` (a literal followed by one whitespace). -/
def nowSpaceAt (l : List Char) : Bool :=
  match eatPref "now".data l with
  | some (c :: _) => isPySpace c
  | _ => false

/-- `block\.timestamp|now\s` on the lowered content. -/
def timeDependencyB (L : List Char) : Bool :=
  containsSub "block.timestamp".data L || existsAt nowSpaceAt L

/-- `block\.difficulty|blockhash\(` on the lowered content. -/
def randomnessB (L : List Char) : Bool :=
  containsSub "block.difficulty".data L || containsSub "blockhash(".data L

/-- One position of `require\s*\([^)]*\+|require\s*\([^)]*\-`: after
`require\s*\(`, a `+` or `-` occurs before any closing parenthesis. -/
def overflowAt (l : List Char) : Bool :=
  match eatPref "require".data l with
  | none => false
  | some l1 =>
    match eatPref ['('] (l1.dropWhile isPySpace) with
    | none => false
    | some l2 => (l2.takeWhile (fun c => c ≠ ')')).any (fun c => c = '+' || c = '-')

/-- The overflow-check heuristic regex on the lowered content. -/
def overflowChecksB (L : List Char) : Bool :=
  existsAt overflowAt L

/-- `SolidityParser.identify_security_patterns`: iterate the pattern
dictionary in order and collect the names whose regex matches. -/
def identify_security_patterns (content : String) : List String :=
  let L := lowerChars content
  (if reentrancyGuardB L then ["reentrancy_guard"] else []) ++
  (if accessControlB L then ["access_control"] else []) ++
  (if safeMathB L then ["safe_math"] else []) ++
  (if externalCallsB L then ["external_calls"] else []) ++
  (if timeDependencyB L then ["time_dependency"] else []) ++
  (if randomnessB L then ["randomness"] else []) ++
  (if overflowChecksB L then ["overflow_checks"] else [])

/-! ## The ingestion pipeline (`ContractIngestionService`)

The MD5 digest (`hashlib.md5(...).hexdigest()`) and the langchain
`RecursiveCharacterTextSplitter.split_text` are external library functions;
they are passed in as parameters `md5hex` and `split_text`.  The Pinecone
vector store is modelled as the list of stored documents; a fallible
collaborator call is modelled by an `Except` / `Option String` failure
injection parameter.
-/

/-- The per-chunk metadata dictionary built in `process_contract_file`
(the unused `relevance_score` accessor of search results is omitted). -/
structure DocMetadata where
  file_path : String
  file_hash : String
  chunk_index : Nat
  total_chunks : Nat
  contracts : List String
  functions : List String
  security_patterns : List String
  pragma : Option String
  content_type : String
deriving Repr, DecidableEq

/-- A document stored in the vector store: chunk text plus metadata. -/
structure Document where
  content : String
  metadata : DocMetadata
deriving Repr, DecidableEq

/-- The success dictionary returned by `process_contract_file`. -/
structure ProcessResult where
  success : Bool
  file_path : String
  file_hash : String
  chunks_count : Nat
  metadata : ContractMetadata
  security_patterns : List String
  documents : List Document
deriving Repr, DecidableEq

/-- `ContractIngestionService.generate_file_hash`: the hex digest of the MD5
of the encoded content; the digest itself is the external `hashlib`. -/
def generate_file_hash (md5hex : String → String) (content : String) : String :=
  md5hex content

/-- `ContractIngestionService.process_contract_file`: extract metadata and
security tags, hash the content, split it into chunks and attach the chunk
metadata (functions capped at 10 entries).  Every step of the Python body is
total, so the `except` branch returning `success := False` is unreachable
and the result is always the success dictionary. -/
def process_contract_file (md5hex : String → String) (split_text : String → List String)
    (file_path content : String) : ProcessResult :=
  let metadata := extract_metadata content
  let security_patterns := identify_security_patterns content
  let file_hash := generate_file_hash md5hex content
  let chunks := split_text content
  let documents := chunks.enum.map (fun p =>
    { content := p.2
      metadata :=
        { file_path := file_path
          file_hash := file_hash
          chunk_index := p.1
          total_chunks := chunks.length
          contracts := metadata.contracts
          functions := metadata.functions.take 10
          security_patterns := security_patterns
          pragma := metadata.pragma
          content_type := "solidity_contract" } })
  { success := true
    file_path := file_path
    file_hash := file_hash
    chunks_count := chunks.length
    metadata := metadata
    security_patterns := security_patterns
    documents := documents }

/-- Model of the vector-store collaborator's `similarity_search` call with a
`file_hash` metadata filter (the deduplication check of `ingest_contract`):
per the collaborator contract, it returns at most `k` stored documents whose
metadata matches the filter. -/
def similarity_search_by_hash (store : List Document) (h : String) (k : Nat) : List Document :=
  (store.filter (fun d => d.metadata.file_hash = h)).take k

/-- The result dictionary of `ingest_contract` (a union of the keys of its
possible returns; absent keys are `none`). -/
structure IngestResult where
  success : Bool
  message : Option String
  file_path : Option String
  file_hash : Option String
  chunks_added : Option Nat
  action : Option String
  error : Option String
deriving Repr, DecidableEq

/-- `ContractIngestionService.ingest_contract`.  `searchFail` (resp.
`addFail`) injects a failure of the collaborator's `similarity_search`
(resp. `add_texts`) call; a raised collaborator error is caught by the
`except` clause and returned as a `success := false` dictionary.  On the
happy path: if a stored document already carries this content hash the call
reports `"skipped"` and stores nothing; otherwise it adds one document per
chunk and reports `"ingested"`. -/
def ingest_contract (md5hex : String → String) (split_text : String → List String)
    (searchFail addFail : Option String) (store : List Document)
    (file_path content : String) : IngestResult × List Document :=
  let result := process_contract_file md5hex split_text file_path content
  match searchFail with
  | some e =>
    ({ success := false, message := none, file_path := none, file_hash := none,
       chunks_added := none, action := none,
       error := some ("Failed to ingest contract: " ++ e) }, store)
  | none =>
    let existing_docs := similarity_search_by_hash store result.file_hash 1
    if existing_docs.isEmpty then
      match addFail with
      | some e =>
        ({ success := false, message := none, file_path := none, file_hash := none,
           chunks_added := none, action := none,
           error := some ("Failed to ingest contract: " ++ e) }, store)
      | none =>
        ({ success := true, message := some "Contract successfully ingested",
           file_path := some file_path, file_hash := some result.file_hash,
           chunks_added := some result.documents.length,
           action := some "ingested", error := none },
         store ++ result.documents)
    else
      ({ success := true, message := some "Contract already exists in database",
         file_path := none, file_hash := some result.file_hash,
         chunks_added := none, action := some "skipped", error := none }, store)

/-- One entry of the list returned by `search_contracts` (`relevance_score`
is always `None` for langchain documents and is omitted). -/
structure SearchResult where
  content : String
  metadata : DocMetadata
deriving Repr, DecidableEq

/-- `ContractIngestionService.search_contracts`: on a successful collaborator
call the documents are repackaged; a collaborator failure is caught and then
re-raised as a new exception with a `"Search failed: "` message — the
exception propagates to the caller. -/
def search_contracts (vsSearch : Except String (List Document)) :
    Except String (List SearchResult) :=
  match vsSearch with
  | .error e => .error ("Search failed: " ++ e)
  | .ok docs => .ok (docs.map (fun d => { content := d.content, metadata := d.metadata }))

/-! ## The conversational orchestrator (`SmartContractAuditBot`)

The chat-completion collaborator (`self.llm.ainvoke`) is a parameter
returning `Except`; messages are role-tagged strings. -/

/-- Message roles of the langchain message classes. -/
inductive Role where
  | system
  | human
  | ai
deriving Repr, DecidableEq

/-- A chat message (`BaseMessage`): role plus content. -/
structure Msg where
  role : Role
  content : String
deriving Repr, DecidableEq

/-- The fixed system prompt built by `_create_system_prompt`. -/
def system_prompt : String := "You are an expert Smart Contract Security Auditor with deep knowledge of Solidity, blockchain security, and common vulnerabilities. Your role is to help users analyze smart contracts for security issues, best practices, and potential improvements.

CORE CAPABILITIES:
1. Security Vulnerability Detection (Reentrancy, Integer Overflow/Underflow, Access Control, etc.)
2. Gas Optimization Analysis
3. Code Quality Assessment
4. Best Practices Recommendations
5. Compliance Checking (ERC standards, etc.)

AUDIT METHODOLOGY:
- Always provide specific line references when discussing code
- Categorize findings by severity: CRITICAL, HIGH, MEDIUM, LOW, INFORMATIONAL
- Explain the potential impact and exploitation scenarios
- Suggest specific remediation steps
- Consider both automated and manual testing approaches

RESPONSE FORMAT:
- Start with a brief summary of findings
- Provide detailed analysis with code references
- Include severity ratings and risk assessments
- Offer concrete remediation suggestions
- Mention relevant tools and testing strategies

SECURITY FOCUS AREAS:
- Reentrancy attacks and state changes
- Access control and authorization
- Integer arithmetic and overflow protection
- External call safety
- Randomness and timestamp dependencies
- Front-running and MEV considerations
- Gas limit and DoS vulnerabilities
- Upgrade patterns and proxy security

Always be thorough, precise, and educational in your responses. When analyzing provided contract code, reference specific functions, variables, and patterns you observe."

/-- One character of the brace-escaping replacement: braces are doubled. -/
def escChar (c : Char) : List Char :=
  if c = '\x7b' then ['\x7b', '\x7b']
  else if c = '\x7d' then ['\x7d', '\x7d']
  else [c]

/-- Brace-escaping over a character list. -/
def escList (l : List Char) : List Char :=
  l.flatMap escChar

/-- Python `s.replace(\"\x7b\", \"\x7b\x7b\").replace(\"\x7d\", \"\x7d\x7d\")`:
double every curly brace. -/
def escapeBraces (s : String) : String :=
  String.mk (escList s.data)

/-- Python `str.format` (the langchain f-string template engine) with the
single known substitution variable `query`: `\x7b\x7b` and `\x7d\x7d` become
literal braces, `\x7bquery\x7d` becomes the argument, and any other brace
use is a formatting error (`none`). -/
def formatChars (arg : String) : List Char → Option (List Char)
  | [] => some []
  | '\x7b' :: '\x7b' :: rest => (formatChars arg rest).map (fun r => '\x7b' :: r)
  | '\x7d' :: '\x7d' :: rest => (formatChars arg rest).map (fun r => '\x7d' :: r)
  | '\x7b' :: rest =>
    let name := rest.takeWhile (fun c => c ≠ '\x7d')
    match (rest.drop name.length).head? with
    | some _ =>
      if String.mk name = "query" then
        (formatChars arg (rest.drop (name.length + 1))).map (fun r => arg.data ++ r)
      else none
    | none => none
  | '\x7d' :: _ => none
  | c :: rest => (formatChars arg rest).map (fun r => c :: r)
termination_by l => l.length
decreasing_by
  all_goals simp_all [List.length_drop]
  all_goals omega

/-- The text of the human template before the placeholder. -/
def humanPre : String := "User Query: "

/-- The text of the human template after the placeholder. -/
def humanTail : String := "\n\nPlease analyze the provided smart contract context and address the user\x27s specific question or concern.\nFocus on security implications, best practices, and actionable recommendations."

/-- The fixed human message template of `_create_audit_prompt`. -/
def human_template : String := humanPre ++ "\x7bquery\x7d" ++ humanTail

/-- The fixed text between the system prompt and the context. -/
def ctxHeader : String := "\n\nRELEVANT CONTRACT CONTEXT:\n"

/-- The fixed text after the context in the system template. -/
def sysTail : String := "\n\nBased on the above context and your expertise, provide a comprehensive audit response to the user\x27s query."

/-- The system message template of `_create_audit_prompt`: the f-string
interpolating the system prompt and the escaped context. -/
def mkSystemTemplate (safe_context : String) : String :=
  system_prompt ++ ctxHeader ++ safe_context ++ sysTail

/-- `_create_audit_prompt`: escape braces in the user query (the escaped
copy is never used by the templates) and in the context, and build the two
message templates. -/
def create_audit_prompt (user_query context : String) : String × String :=
  let _safe_user_query := escapeBraces user_query
  let safe_context := escapeBraces context
  (mkSystemTemplate safe_context, human_template)

/-- `ChatPromptTemplate.format_messages(query=...)`: format both templates,
producing a system and a human message; a template error aborts (raises). -/
def format_messages (tpl : String × String) (query : String) : Option (List Msg) :=
  match formatChars query tpl.1.data, formatChars query tpl.2.data with
  | some s, some h => some [⟨Role.system, String.mk s⟩, ⟨Role.human, String.mk h⟩]
  | _, _ => none

/-- The sentinel context returned when retrieval finds nothing. -/
def noCtx : String := "No relevant contract context found in the database."

/-- One formatted context block of `get_relevant_context` (1-based index). -/
def contextPart (i : Nat) (r : SearchResult) : String :=
  "\n--- Contract Context " ++ toString i ++ " ---\nFile: " ++ r.metadata.file_path ++
    "\nContracts: " ++ String.intercalate ", " r.metadata.contracts ++
    "\nFunctions: " ++ String.intercalate ", " (r.metadata.functions.take 5) ++
    "\nSecurity Patterns: " ++ String.intercalate ", " r.metadata.security_patterns ++
    "\n\nCode:\n" ++ r.content ++ "\n"

/-- `SmartContractAuditBot.get_relevant_context`: run the search (the raw
vector-store outcome is `vsSearch`); an exception raised by
`search_contracts` is caught and turned into an error *string*; an empty
result list yields the sentinel; otherwise the blocks are joined. -/
def get_relevant_context (vsSearch : Except String (List Document)) : String :=
  match search_contracts vsSearch with
  | .error e => "Error retrieving context: " ++ e
  | .ok [] => noCtx
  | .ok results =>
    String.intercalate "\n" ((results.enumFrom 1).map (fun p => contextPart p.1 p.2))

/-- The context string computed at the start of `chat`. -/
def chat_context (vsSearch : Except String (List Document)) (include_context : Bool) : String :=
  if include_context then get_relevant_context vsSearch else ""

/-- The messages `chat` sends for the current turn (before prepending the
history window): the audit prompt when a real context is present, otherwise
the bare system prompt and user message. -/
def chat_turn_messages (vsSearch : Except String (List Document))
    (user_message : String) (include_context : Bool) : Option (List Msg) :=
  let context := chat_context vsSearch include_context
  if context ≠ "" ∧ context ≠ noCtx then
    format_messages (create_audit_prompt user_message context) user_message
  else
    some [⟨Role.system, system_prompt⟩, ⟨Role.human, user_message⟩]

/-- `conversation_history[-10:]`: the trailing window of 10 messages. -/
def lastTen (history : List Msg) : List Msg :=
  history.drop (history.length - 10)

/-- The `full_messages` request `chat` sends to the completion collaborator:
the trailing history window followed by this turn's messages (`none` when
template formatting raises). -/
def chat_request (vsSearch : Except String (List Document)) (history : List Msg)
    (user_message : String) (include_context : Bool) : Option (List Msg) :=
  (chat_turn_messages vsSearch user_message include_context).map
    (fun msgs => lastTen history ++ msgs)

/-- The result dictionary of `chat` (the wall-clock timestamp is an external
effect and is omitted). -/
structure ChatResult where
  success : Bool
  response : Option String
  context_used : Option Bool
  error : Option String
deriving Repr, DecidableEq

/-- `SmartContractAuditBot.chat`.  `completion` is the chat-completion
collaborator (`self.llm.ainvoke`); `vsSearch` is the raw vector-store
outcome for this turn's retrieval; `history` is `self.conversation_history`
on entry, and the second component of the result is the history on exit.
Any exception inside the `try` block (a failing completion call, or a
template formatting error) is caught and returned as a failure dictionary,
leaving the history untouched; on success the user message and the reply are
appended to the history. -/
def chat (completion : List Msg → Except String Msg)
    (vsSearch : Except String (List Document))
    (history : List Msg) (user_message : String) (include_context : Bool) :
    ChatResult × List Msg :=
  match chat_request vsSearch history user_message include_context with
  | none =>
    ({ success := false, response := none, context_used := none,
       error := some "Chat failed: template formatting error" }, history)
  | some full_messages =>
    match completion full_messages with
    | .error e =>
      ({ success := false, response := none, context_used := none,
         error := some ("Chat failed: " ++ e) }, history)
    | .ok resp =>
      let context := chat_context vsSearch include_context
      ({ success := true, response := some resp.content,
         context_used := some (decide (context ≠ "" ∧ context ≠ noCtx)),
         error := none },
       history ++ [⟨Role.human, user_message⟩, resp])

/-- `SmartContractAuditBot.clear_conversation`: reset the history. -/
def clear_conversation (_history : List Msg) : List Msg := []

/-! ## Declarative regex shapes

Specification-side descriptions of the regexes, stated as plain
decompositions of the character list, against which the executable matchers
are compared. -/

/-- A character that is not a curly brace. -/
def braceFreeChar (c : Char) : Bool :=
  c ≠ '\x7b' && c ≠ '\x7d'

/-- A string with no curly-brace template metacharacter. -/
def braceFree (s : String) : Bool :=
  s.data.all braceFreeChar

/-- Declaratively: `require\s*\(\s*msg\.sender` matches at the start of `t`
(whitespace is allowed after `require` and after the parenthesis, and
nowhere else). -/
def ReqShape (t : List Char) : Prop :=
  ∃ s1 s2 r, (∀ c ∈ s1, isPySpace c = true) ∧ (∀ c ∈ s2, isPySpace c = true) ∧
    t = "require".data ++ s1 ++ '(' :: (s2 ++ "msg.sender".data ++ r)

/-- Declaratively: the access-control regex matches somewhere in the
lowered content. -/
def AccessControlled (content : String) : Prop :=
  ∃ t, t <:+ lowerChars content ∧
    ("onlyowner".data <+: t ∨ "onlyadmin".data <+: t ∨ ReqShape t)

/-- Declaratively: `pragma\s+solidity\s+([^;]+);` matches at the start of
`t`, with version expression `v`. -/
def PragmaShape (t : List Char) : Prop :=
  ∃ s1 s2 v r, (∀ c ∈ s1, isPySpace c = true) ∧ (∀ c ∈ s2, isPySpace c = true) ∧
    s1 ≠ [] ∧ s2 ≠ [] ∧ v ≠ [] ∧ ';' ∉ v ∧
    t = "pragma".data ++ s1 ++ "solidity".data ++ s2 ++ v ++ ';' :: r

/-- One-position disjunction of all seven security regexes (on the lowered
content): some security pattern matches at the start of `t`. -/
def securityAt (t : List Char) : Bool :=
  subAt "nonreentrant".data t || subAt "reentrancyguard".data t ||
  subAt "onlyowner".data t || subAt "onlyadmin".data t || reqMsgSenderAt t ||
  subAt "safemath".data t || subAt ".add(".data t || subAt ".sub(".data t ||
  subAt ".mul(".data t || subAt ".div(".data t ||
  subAt ".call(".data t || subAt ".delegatecall(".data t || subAt ".staticcall(".data t ||
  subAt "block.timestamp".data t || nowSpaceAt t ||
  subAt "block.difficulty".data t || subAt "blockhash(".data t ||
  overflowAt t

/-! ## Foundational lemmas about the scanning primitives -/

theorem eatPref_eq_some_iff {pat l r : List Char} :
    eatPref pat l = some r ↔ l = pat ++ r := by
  induction pat generalizing l with
  | nil => simp [eatPref]
  | cons p ps ih =>
    cases l with
    | nil => simp [eatPref]
    | cons c cs =>
      simp only [eatPref, List.cons_append, List.cons.injEq]
      by_cases hpc : p = c
      · subst hpc
        simp [ih]
      · simp [if_neg hpc, Ne.symm hpc]

theorem eatPref_isSome_iff {pat l : List Char} :
    (eatPref pat l).isSome = true ↔ pat <+: l := by
  rw [Option.isSome_iff_exists]
  constructor
  · rintro ⟨r, hr⟩
    exact ⟨r, (eatPref_eq_some_iff.mp hr).symm⟩
  · rintro ⟨r, hr⟩
    exact ⟨r, eatPref_eq_some_iff.mpr hr.symm⟩

theorem subAt_iff {pat t : List Char} : subAt pat t = true ↔ pat <+: t := by
  rw [subAt, eatPref_isSome_iff]

theorem existsAt_iff {p : List Char → Bool} {l : List Char} :
    existsAt p l = true ↔ ∃ t, t <:+ l ∧ p t = true := by
  induction l with
  | nil =>
    simp only [existsAt]
    constructor
    · intro h
      exact ⟨[], List.nil_suffix, h⟩
    · rintro ⟨t, ht, hp⟩
      rwa [List.suffix_nil.mp ht] at hp
  | cons c rest ih =>
    simp only [existsAt, Bool.or_eq_true, ih]
    constructor
    · rintro (h | ⟨t, ht, hp⟩)
      · exact ⟨c :: rest, List.suffix_refl _, h⟩
      · exact ⟨t, ht.trans (List.suffix_cons c rest), hp⟩
    · rintro ⟨t, ht, hp⟩
      rcases ht with ⟨pre, hpre⟩
      cases pre with
      | nil => exact Or.inl (by simpa using hpre ▸ hp)
      | cons d ds =>
        right
        refine ⟨t, ⟨ds, ?_⟩, hp⟩
        simpa using congrArg List.tail hpre

theorem existsAt_eq_false_iff {p : List Char → Bool} {l : List Char} :
    existsAt p l = false ↔ ∀ t, t <:+ l → p t = false := by
  constructor
  · intro h t ht
    by_contra habs
    have : existsAt p l = true := existsAt_iff.mpr ⟨t, ht, by simpa using habs⟩
    simp [this] at h
  · intro h
    by_contra habs
    rcases existsAt_iff.mp (by simpa using habs) with ⟨t, ht, hp⟩
    have := h t ht
    simp [this] at hp

theorem containsSub_iff {pat l : List Char} :
    containsSub pat l = true ↔ ∃ t, t <:+ l ∧ pat <+: t := by
  rw [containsSub, existsAt_iff]
  simp only [subAt_iff]

theorem searchFirst_eq_none {m : List Char → Option α} {l : List Char}
    (h : ∀ t, t <:+ l → m t = none) : searchFirst m l = none := by
  induction l with
  | nil => simpa [searchFirst] using h [] (List.suffix_refl _)
  | cons c rest ih =>
    have hc : m (c :: rest) = none := h _ (List.suffix_refl _)
    simp only [searchFirst, hc]
    exact ih (fun t ht => h t (ht.trans (List.suffix_cons c rest)))

theorem searchFirst_cons_none {m : List Char → Option α} {c : Char} {rest : List Char}
    (h : m (c :: rest) = none) : searchFirst m (c :: rest) = searchFirst m rest := by
  simp [searchFirst, h]

theorem searchFirst_cons_some {m : List Char → Option α} {c : Char} {rest : List Char}
    {g : α} (h : m (c :: rest) = some g) : searchFirst m (c :: rest) = some g := by
  simp [searchFirst, h]

theorem scanAll_eq_nil {m : List Char → Option (List Char × List Char)} {l : List Char}
    (h : ∀ t, t <:+ l → m t = none) : scanAll m l = [] := by
  induction l with
  | nil => simp [scanAll, h [] (List.suffix_refl _)]
  | cons c rest ih =>
    have hc : m (c :: rest) = none := h _ (List.suffix_refl _)
    simp only [scanAll, hc]
    exact ih (fun t ht => h t (ht.trans (List.suffix_cons c rest)))

theorem dropWhile_spaces_append {s t : List Char} (hs : ∀ c ∈ s, isPySpace c = true) :
    (s ++ t).dropWhile isPySpace = t.dropWhile isPySpace := by
  induction s with
  | nil => simp
  | cons c cs ih =>
    have hc : isPySpace c = true := hs c (List.mem_cons_self c cs)
    simp only [List.cons_append, List.dropWhile_cons, hc, if_true]
    exact ih (fun d hd => hs d (List.mem_cons_of_mem c hd))

theorem takeWhile_append_not {p : Char → Bool} {s : List Char} {d : Char} {t : List Char}
    (hs : ∀ c ∈ s, p c = true) (hd : p d = false) :
    (s ++ d :: t).takeWhile p = s := by
  induction s with
  | nil => simp [List.takeWhile_cons, hd]
  | cons c cs ih =>
    have hc : p c = true := hs c (List.mem_cons_self c cs)
    simp only [List.cons_append, List.takeWhile_cons, hc, if_true]
    simp [ih (fun e he => hs e (List.mem_cons_of_mem c he))]

/-! ## Claim C7: history growth and reset -/

/-- C7: every successful `chat` call appends exactly two entries to the
conversation history — the user message followed by the model reply, in that
order (and the reply is what the result reports) — and `clear_conversation`
leaves the history with length 0. -/
theorem chat_success_appends_exactly_two
    (completion : List Msg → Except String Msg) (vsSearch : Except String (List Document))
    (history : List Msg) (user_message : String) (include_context : Bool)
    (hs : (chat completion vsSearch history user_message include_context).1.success = true) :
    (∃ reply, (chat completion vsSearch history user_message include_context).2
        = history ++ [⟨Role.human, user_message⟩, reply] ∧
      (chat completion vsSearch history user_message include_context).1.response
        = some reply.content) ∧
    (chat completion vsSearch history user_message include_context).2.length
      = history.length + 2 ∧
    (clear_conversation history).length = 0 := by
  unfold chat at hs ⊢
  cases hreq : chat_request vsSearch history user_message include_context with
  | none => rw [hreq] at hs; simp at hs
  | some full =>
    rw [hreq] at hs
    dsimp only at hs
    cases hcomp : completion full with
    | error e => rw [hcomp] at hs; simp at hs
    | ok resp =>
      dsimp only
      rw [hcomp]
      exact ⟨⟨resp, rfl, rfl⟩, by simp, rfl⟩

/-- Witness for C7 at a concrete successful call. -/
theorem chat_success_appends_exactly_two_witness :
    (∃ reply, (chat (fun _ => Except.ok ⟨Role.ai, "ok"⟩) (Except.ok []) [] "hi" false).2
        = [] ++ [⟨Role.human, "hi"⟩, reply] ∧
      (chat (fun _ => Except.ok ⟨Role.ai, "ok"⟩) (Except.ok []) [] "hi" false).1.response
        = some reply.content) ∧
    (chat (fun _ => Except.ok ⟨Role.ai, "ok"⟩) (Except.ok []) [] "hi" false).2.length
      = ([] : List Msg).length + 2 ∧
    (clear_conversation []).length = 0 :=
  chat_success_appends_exactly_two (fun _ => Except.ok ⟨Role.ai, "ok"⟩) (Except.ok [])
    [] "hi" false rfl

/-! ## Claim C8: empty vector store degrades to the base prompt -/

/-- C8: when the vector store is empty (retrieval returns no documents), a
chat call sends exactly the trailing history window, the base instructional
system prompt and the user message — no retrieved-context section — and the
successful result reports `context_used = false`. -/
theorem chat_empty_store_no_context
    (completion : List Msg → Except String Msg) (history : List Msg)
    (user : String) (resp : Msg)
    (hok : completion (lastTen history ++ [⟨Role.system, system_prompt⟩, ⟨Role.human, user⟩])
      = Except.ok resp) :
    chat_request (Except.ok []) history user true
      = some (lastTen history ++ [⟨Role.system, system_prompt⟩, ⟨Role.human, user⟩]) ∧
    (chat completion (Except.ok []) history user true).1.context_used = some false ∧
    (chat completion (Except.ok []) history user true).1.success = true ∧
    (chat completion (Except.ok []) history user true).1.response = some resp.content := by
  have hctx : chat_context (Except.ok []) true = noCtx := by
    simp [chat_context, get_relevant_context, search_contracts]
  have hturn : chat_turn_messages (Except.ok []) user true
      = some [⟨Role.system, system_prompt⟩, ⟨Role.human, user⟩] := by
    simp [chat_turn_messages, hctx]
  have hreq : chat_request (Except.ok []) history user true
      = some (lastTen history ++ [⟨Role.system, system_prompt⟩, ⟨Role.human, user⟩]) := by
    simp [chat_request, hturn]
  refine ⟨hreq, ?_⟩
  unfold chat
  rw [hreq]
  dsimp only
  rw [hok]
  simp [hctx]

/-- Witness for C8 at a concrete call. -/
theorem chat_empty_store_no_context_witness :
    chat_request (Except.ok []) [] "hi" true
      = some (lastTen [] ++ [⟨Role.system, system_prompt⟩, ⟨Role.human, "hi"⟩]) ∧
    (chat (fun _ => Except.ok ⟨Role.ai, "a"⟩) (Except.ok []) [] "hi" true).1.context_used
      = some false ∧
    (chat (fun _ => Except.ok ⟨Role.ai, "a"⟩) (Except.ok []) [] "hi" true).1.success = true ∧
    (chat (fun _ => Except.ok ⟨Role.ai, "a"⟩) (Except.ok []) [] "hi" true).1.response
      = some (Msg.content ⟨Role.ai, "a"⟩) :=
  chat_empty_store_no_context (fun _ => Except.ok ⟨Role.ai, "a"⟩) [] "hi" ⟨Role.ai, "a"⟩ rfl

/-! ## Claim C9: the request carries only the trailing 10-message window -/

/-- C9: whatever request `chat` sends to the completion collaborator starts
with `lastTen history`, which is a suffix of the in-memory history of length
at most 10; and the full in-memory history is preserved (older entries are
only omitted from the request, never dropped from memory). -/
theorem chat_request_history_window
    (completion : List Msg → Except String Msg) (vsSearch : Except String (List Document))
    (history : List Msg) (user : String) (ic : Bool) (req : List Msg)
    (hreq : chat_request vsSearch history user ic = some req) :
    (∃ turn, req = lastTen history ++ turn) ∧
    (lastTen history).length ≤ 10 ∧
    lastTen history <:+ history ∧
    history <+: (chat completion vsSearch history user ic).2 := by
  refine ⟨?_, ?_, ?_, ?_⟩
  · rcases Option.map_eq_some'.mp hreq with ⟨turn, _, hturn⟩
    exact ⟨turn, hturn.symm⟩
  · simp only [lastTen, List.length_drop]
    omega
  · exact List.drop_suffix _ _
  · unfold chat
    rw [hreq]
    dsimp only
    cases hcomp : completion req with
    | error e => exact List.prefix_refl _
    | ok resp => exact List.prefix_append _ _

/-- Witness for C9: a 12-message history is windowed to its last 10. -/
theorem chat_request_window_witness :
    (∃ turn, lastTen (List.replicate 12 (⟨Role.human, "m"⟩ : Msg)) ++
        [⟨Role.system, system_prompt⟩, ⟨Role.human, "q"⟩]
      = lastTen (List.replicate 12 (⟨Role.human, "m"⟩ : Msg)) ++ turn) ∧
    (lastTen (List.replicate 12 (⟨Role.human, "m"⟩ : Msg))).length ≤ 10 ∧
    lastTen (List.replicate 12 (⟨Role.human, "m"⟩ : Msg))
      <:+ List.replicate 12 (⟨Role.human, "m"⟩ : Msg) ∧
    List.replicate 12 (⟨Role.human, "m"⟩ : Msg)
      <+: (chat (fun _ => Except.ok ⟨Role.ai, "a"⟩) (Except.ok [])
            (List.replicate 12 (⟨Role.human, "m"⟩ : Msg)) "q" false).2 :=
  chat_request_history_window (fun _ => Except.ok ⟨Role.ai, "a"⟩) (Except.ok [])
    (List.replicate 12 ⟨Role.human, "m"⟩) "q" false
    (lastTen (List.replicate 12 ⟨Role.human, "m"⟩) ++
      [⟨Role.system, system_prompt⟩, ⟨Role.human, "q"⟩]) (by rfl)

/-! ## Claim C10: a failed chat call is atomic for the history -/

/-- C10: when the completion collaborator fails, `chat` returns a failure
result and the conversation history is exactly what it was before the call:
neither the user message nor a reply is appended. -/
theorem chat_completion_failure_atomic
    (completion : List Msg → Except String Msg) (vsSearch : Except String (List Document))
    (history : List Msg) (user : String) (ic : Bool) (e : String)
    (hfail : ∀ msgs, completion msgs = Except.error e) :
    (chat completion vsSearch history user ic).1.success = false ∧
    (chat completion vsSearch history user ic).2 = history := by
  unfold chat
  cases hreq : chat_request vsSearch history user ic with
  | none => exact ⟨rfl, rfl⟩
  | some full =>
    dsimp only
    rw [hfail full]
    exact ⟨rfl, rfl⟩

/-- Witness for C10 at a concrete failing completion. -/
theorem chat_completion_failure_atomic_witness :
    (chat (fun _ => Except.error "rate limited") (Except.ok [])
      [⟨Role.human, "old"⟩] "q" false).1.success = false ∧
    (chat (fun _ => Except.error "rate limited") (Except.ok [])
      [⟨Role.human, "old"⟩] "q" false).2 = [⟨Role.human, "old"⟩] :=
  chat_completion_failure_atomic (fun _ => Except.error "rate limited") (Except.ok [])
    [⟨Role.human, "old"⟩] "q" false "rate limited" (fun _ => rfl)

/-! ## Claim C1: ingestion deduplicates by content hash -/

theorem ssbh_isEmpty_true {store : List Document} {h : String}
    (habs : ∀ d ∈ store, d.metadata.file_hash ≠ h) :
    (similarity_search_by_hash store h 1).isEmpty = true := by
  unfold similarity_search_by_hash
  rw [List.isEmpty_iff]
  have hnil : store.filter (fun d => decide (d.metadata.file_hash = h)) = [] := by
    rw [List.filter_eq_nil_iff]
    intro d hd
    simpa using habs d hd
  simp [hnil]

theorem ssbh_isEmpty_false {store : List Document} {h : String}
    (hex : ∃ d ∈ store, d.metadata.file_hash = h) :
    (similarity_search_by_hash store h 1).isEmpty = false := by
  unfold similarity_search_by_hash
  rcases hex with ⟨d, hd, hh⟩
  have hmem : d ∈ store.filter (fun d => decide (d.metadata.file_hash = h)) :=
    List.mem_filter.mpr ⟨hd, by simp [hh]⟩
  cases hflt : store.filter (fun d => decide (d.metadata.file_hash = h)) with
  | nil => rw [hflt] at hmem; cases hmem
  | cons a rest => simp [hflt]

theorem process_file_hash (md5hex : String → String)
    (split_text : String → List String) (fp content : String) :
    (process_contract_file md5hex split_text fp content).file_hash = md5hex content := rfl

theorem process_documents_content (md5hex : String → String)
    (split_text : String → List String) (fp content : String) :
    (process_contract_file md5hex split_text fp content).documents.map Document.content
      = split_text content := by
  unfold process_contract_file
  dsimp only
  rw [List.map_map]
  exact List.enum_map_snd (split_text content)

theorem process_documents_length (md5hex : String → String)
    (split_text : String → List String) (fp content : String) :
    (process_contract_file md5hex split_text fp content).documents.length
      = (split_text content).length := by
  unfold process_contract_file
  simp

theorem process_documents_hash (md5hex : String → String)
    (split_text : String → List String) (fp content : String) :
    ∀ d ∈ (process_contract_file md5hex split_text fp content).documents,
      d.metadata.file_hash = md5hex content := by
  unfold process_contract_file
  dsimp only
  intro d hd
  rcases List.mem_map.mp hd with ⟨p, _, hpd⟩
  rw [← hpd]
  rfl

/-- C1: on the happy path (no collaborator failure), `ingest_contract` with a
content whose hash is already present stores nothing and reports
`"skipped"`; with a fresh hash it inserts one chunk per split piece and
reports `"ingested"` with the new hash and the chunk count; and a second
call with identical content right after a first call (identical hash, now
present provided the content produced at least one chunk) is always
`"skipped"` and leaves the stored documents unchanged. -/
theorem ingest_contract_dedup_by_hash
    (md5hex : String → String) (split_text : String → List String)
    (store : List Document) (fp fp2 content : String) :
    ((∃ d ∈ store, d.metadata.file_hash = md5hex content) →
      (ingest_contract md5hex split_text none none store fp content).1.action = some "skipped" ∧
      (ingest_contract md5hex split_text none none store fp content).2 = store) ∧
    ((∀ d ∈ store, d.metadata.file_hash ≠ md5hex content) →
      (ingest_contract md5hex split_text none none store fp content).1.action = some "ingested" ∧
      (ingest_contract md5hex split_text none none store fp content).1.file_hash
        = some (md5hex content) ∧
      (ingest_contract md5hex split_text none none store fp content).1.chunks_added
        = some (split_text content).length ∧
      ((ingest_contract md5hex split_text none none store fp content).2).map Document.content
        = store.map Document.content ++ split_text content) ∧
    (split_text content ≠ [] →
      (ingest_contract md5hex split_text none none
          (ingest_contract md5hex split_text none none store fp content).2 fp2 content).1.action
        = some "skipped" ∧
      (ingest_contract md5hex split_text none none
          (ingest_contract md5hex split_text none none store fp content).2 fp2 content).2
        = (ingest_contract md5hex split_text none none store fp content).2) := by
  have hskip : ∀ (st : List Document) (f : String),
      (∃ d ∈ st, d.metadata.file_hash = md5hex content) →
      (ingest_contract md5hex split_text none none st f content).1.action = some "skipped" ∧
      (ingest_contract md5hex split_text none none st f content).2 = st := by
    intro st f hex
    unfold ingest_contract
    dsimp only
    rw [process_file_hash, ssbh_isEmpty_false hex]
    exact ⟨rfl, rfl⟩
  have hfresh : (∀ d ∈ store, d.metadata.file_hash ≠ md5hex content) →
      (ingest_contract md5hex split_text none none store fp content).1.action = some "ingested" ∧
      (ingest_contract md5hex split_text none none store fp content).1.file_hash
        = some (md5hex content) ∧
      (ingest_contract md5hex split_text none none store fp content).1.chunks_added
        = some (split_text content).length ∧
      ((ingest_contract md5hex split_text none none store fp content).2).map Document.content
        = store.map Document.content ++ split_text content := by
    intro habs
    unfold ingest_contract
    dsimp only
    rw [process_file_hash, ssbh_isEmpty_true habs, if_pos rfl]
    refine ⟨rfl, rfl, ?_, ?_⟩
    · dsimp only
      rw [process_documents_length]
    · dsimp only
      rw [List.map_append, process_documents_content md5hex split_text fp content]
  refine ⟨hskip store fp, hfresh, ?_⟩
  intro hne
  by_cases hex : ∃ d ∈ store, d.metadata.file_hash = md5hex content
  · have h1 := hskip store fp hex
    rw [h1.2]
    exact hskip store fp2 hex
  · push_neg at hex
    have h2 := hfresh hex
    apply hskip
    have hchunks : (process_contract_file md5hex split_text fp content).documents ≠ [] := by
      intro hnil
      have := process_documents_content md5hex split_text fp content
      rw [hnil] at this
      exact hne this.symm
    rcases List.exists_mem_of_ne_nil _ hchunks with ⟨d, hd⟩
    refine ⟨d, ?_, process_documents_hash md5hex split_text fp content d hd⟩
    have hstore2 : (ingest_contract md5hex split_text none none store fp content).2
        = store ++ (process_contract_file md5hex split_text fp content).documents := by
      unfold ingest_contract
      dsimp only
      rw [process_file_hash, ssbh_isEmpty_true hex, if_pos rfl]
    rw [hstore2]
    exact List.mem_append_right store hd

/-- Witness for C1: ingesting a contract into an empty store, then ingesting
the identical content again. -/
theorem ingest_contract_dedup_by_hash_witness :
    (ingest_contract (fun s => toString s.length) (fun s => [s]) none none []
        "a.sol" "contract A").1.action = some "ingested" ∧
    (ingest_contract (fun s => toString s.length) (fun s => [s]) none none []
        "a.sol" "contract A").1.chunks_added = some 1 ∧
    (ingest_contract (fun s => toString s.length) (fun s => [s]) none none
        (ingest_contract (fun s => toString s.length) (fun s => [s]) none none []
          "a.sol" "contract A").2
        "b.sol" "contract A").1.action = some "skipped" ∧
    (ingest_contract (fun s => toString s.length) (fun s => [s]) none none
        (ingest_contract (fun s => toString s.length) (fun s => [s]) none none []
          "a.sol" "contract A").2
        "b.sol" "contract A").2
      = (ingest_contract (fun s => toString s.length) (fun s => [s]) none none []
          "a.sol" "contract A").2 := by
  have h := ingest_contract_dedup_by_hash (fun s => toString s.length) (fun s => [s])
    [] "a.sol" "b.sol" "contract A"
  exact ⟨(h.2.1 (by simp)).1, (h.2.1 (by simp)).2.2.1,
    (h.2.2 (by simp)).1, (h.2.2 (by simp)).2⟩

/-! ## Claim C4: prompt assembly and brace escaping -/

theorem data_append (a b : String) : (a ++ b).data = a.data ++ b.data := rfl

theorem formatChars_nil (arg : String) : formatChars arg [] = some [] := by
  simp [formatChars]

theorem formatChars_open_pair (arg : String) (rest : List Char) :
    formatChars arg ('\x7b' :: '\x7b' :: rest)
      = (formatChars arg rest).map (fun r => '\x7b' :: r) := by
  simp [formatChars]

theorem formatChars_close_pair (arg : String) (rest : List Char) :
    formatChars arg ('\x7d' :: '\x7d' :: rest)
      = (formatChars arg rest).map (fun r => '\x7d' :: r) := by
  simp [formatChars]

theorem formatChars_cons_free (arg : String) {c : Char} (rest : List Char)
    (h1 : c ≠ '\x7b') (h2 : c ≠ '\x7d') :
    formatChars arg (c :: rest) = (formatChars arg rest).map (fun r => c :: r) := by
  rw [formatChars.eq_def]
  split
  all_goals simp_all

theorem formatChars_query (arg : String) (rest : List Char) :
    formatChars arg ('\x7b' :: ('q' :: 'u' :: 'e' :: 'r' :: 'y' :: '\x7d' :: rest))
      = (formatChars arg rest).map (fun r => arg.data ++ r) := by
  simp [formatChars]

theorem braceFreeChar_spec {c : Char} (h : braceFreeChar c = true) :
    c ≠ '\x7b' ∧ c ≠ '\x7d' := by
  constructor <;> (intro he; subst he; simp [braceFreeChar] at h)

theorem formatChars_append_free (arg : String) {s : List Char}
    (hs : ∀ c ∈ s, braceFreeChar c = true) (rest : List Char) :
    formatChars arg (s ++ rest) = (formatChars arg rest).map (fun r => s ++ r) := by
  induction s with
  | nil => simp
  | cons c cs ih =>
    rcases braceFreeChar_spec (hs c (List.mem_cons_self c cs)) with ⟨h1, h2⟩
    rw [List.cons_append, formatChars_cons_free arg _ h1 h2,
      ih (fun d hd => hs d (List.mem_cons_of_mem c hd))]
    cases formatChars arg rest <;> simp

theorem formatChars_escList (arg : String) (l rest : List Char) :
    formatChars arg (escList l ++ rest) = (formatChars arg rest).map (fun r => l ++ r) := by
  induction l with
  | nil => simp [escList]
  | cons c cs ih =>
    by_cases h1 : c = '\x7b'
    · subst h1
      rw [show escList ('\x7b' :: cs) = '\x7b' :: '\x7b' :: escList cs from by
        simp [escList, escChar]]
      rw [List.cons_append, List.cons_append, formatChars_open_pair, ih]
      cases formatChars arg rest <;> simp
    · by_cases h2 : c = '\x7d'
      · subst h2
        rw [show escList ('\x7d' :: cs) = '\x7d' :: '\x7d' :: escList cs from by
          simp [escList, escChar]]
        rw [List.cons_append, List.cons_append, formatChars_close_pair, ih]
        cases formatChars arg rest <;> simp
      · rw [show escList (c :: cs) = c :: escList cs from by
          simp [escList, escChar, h1, h2]]
        rw [List.cons_append, formatChars_cons_free arg _ h1 h2, ih]
        cases formatChars arg rest <;> simp

theorem braceFree_all {s : String} (h : braceFree s = true) :
    ∀ c ∈ s.data, braceFreeChar c = true := by
  simpa [braceFree, List.all_eq_true] using h

theorem formatChars_string_only (arg : String) {s : String} (h : braceFree s = true) :
    formatChars arg s.data = some s.data := by
  have hh := formatChars_append_free arg (braceFree_all h) []
  simpa [formatChars_nil] using hh

set_option maxRecDepth 10000 in
theorem system_prompt_braceFree : braceFree system_prompt = true := by decide

theorem ctxHeader_braceFree : braceFree ctxHeader = true := by decide

set_option maxRecDepth 2000 in
theorem sysTail_braceFree : braceFree sysTail = true := by decide

theorem humanPre_braceFree : braceFree humanPre = true := by decide

set_option maxRecDepth 2000 in
theorem humanTail_braceFree : braceFree humanTail = true := by decide

theorem formatChars_system (user ctx : String) :
    formatChars user (mkSystemTemplate (escapeBraces ctx)).data
      = some (system_prompt ++ ctxHeader ++ ctx ++ sysTail).data := by
  have hdata : (mkSystemTemplate (escapeBraces ctx)).data
      = system_prompt.data ++ (ctxHeader.data ++ (escList ctx.data ++ sysTail.data)) := by
    simp [mkSystemTemplate, escapeBraces, data_append, List.append_assoc]
  rw [hdata, formatChars_append_free user (braceFree_all system_prompt_braceFree) _,
    formatChars_append_free user (braceFree_all ctxHeader_braceFree) _,
    formatChars_escList user _ _,
    formatChars_string_only user sysTail_braceFree]
  simp [data_append, List.append_assoc]

theorem formatChars_human (user : String) :
    formatChars user human_template.data = some (humanPre ++ user ++ humanTail).data := by
  have hdata : human_template.data
      = humanPre.data ++ ('\x7b' :: ('q' :: 'u' :: 'e' :: 'r' :: 'y' :: '\x7d' :: humanTail.data)) := by
    rfl
  rw [hdata, formatChars_append_free user (braceFree_all humanPre_braceFree) _,
    formatChars_query user _,
    formatChars_string_only user humanTail_braceFree]
  simp [data_append, List.append_assoc]

theorem format_messages_create (user ctx : String) :
    format_messages (create_audit_prompt user ctx) user
      = some [⟨Role.system, system_prompt ++ ctxHeader ++ ctx ++ sysTail⟩,
              ⟨Role.human, humanPre ++ user ++ humanTail⟩] := by
  unfold format_messages create_audit_prompt
  dsimp only
  rw [formatChars_system user ctx, formatChars_human user]

/-- C4: for every user input and every retrieved-context string — braces
included — the assembled prompt messages contain the context and the user
input verbatim inside the fixed instructional templates: escaping (for the
context) and format-argument substitution (for the user query) reproduce
every curly brace literally, and formatting never fails, so the template is
never corrupted. -/
theorem prompt_assembly_preserves_braces (user ctx : String) :
    format_messages (create_audit_prompt user ctx) user
      = some [⟨Role.system, system_prompt ++ ctxHeader ++ ctx ++ sysTail⟩,
              ⟨Role.human, humanPre ++ user ++ humanTail⟩] :=
  format_messages_create user ctx

/-! ## Claim C2: failure policy of the core operations -/

theorem errHead (x : String) :
    ("Error retrieving context: " ++ x).data.head? = some 'E' := rfl

theorem errCtx_ne (x : String) :
    ("Error retrieving context: " ++ x) ≠ "" ∧
    ("Error retrieving context: " ++ x) ≠ noCtx := by
  constructor <;> intro h
  · have h2 := congrArg (fun s : String => s.data.head?) h
    dsimp only at h2
    rw [errHead] at h2
    exact absurd h2 (by decide)
  · have h2 := congrArg (fun s : String => s.data.head?) h
    dsimp only at h2
    rw [errHead] at h2
    exact absurd h2 (by decide)

theorem chat_turn_messages_isSome (vs : Except String (List Document))
    (user : String) (ic : Bool) :
    ∃ msgs, chat_turn_messages vs user ic = some msgs := by
  unfold chat_turn_messages
  dsimp only
  split
  · exact ⟨_, format_messages_create user _⟩
  · exact ⟨_, rfl⟩

theorem chat_context_error (e : String) :
    chat_context (Except.error e) true
      = "Error retrieving context: " ++ ("Search failed: " ++ e) := by
  simp [chat_context, get_relevant_context, search_contracts]

theorem chat_retrieval_failure_success
    (completion : List Msg → Except String Msg) (history : List Msg)
    (user e : String) (resp : Msg)
    (hok : ∀ msgs, completion msgs = Except.ok resp) :
    (chat completion (Except.error e) history user true).1.success = true ∧
    (chat completion (Except.error e) history user true).1.context_used = some true := by
  have hctx := chat_context_error e
  have hcond := errCtx_ne ("Search failed: " ++ e)
  have hturn : chat_turn_messages (Except.error e) user true
      = some [⟨Role.system, system_prompt ++ ctxHeader ++
                ("Error retrieving context: " ++ ("Search failed: " ++ e)) ++ sysTail⟩,
              ⟨Role.human, humanPre ++ user ++ humanTail⟩] := by
    unfold chat_turn_messages
    dsimp only
    rw [hctx, if_pos ⟨hcond.1, hcond.2⟩]
    exact format_messages_create user _
  have hreq : chat_request (Except.error e) history user true
      = some (lastTen history ++
          [⟨Role.system, system_prompt ++ ctxHeader ++
              ("Error retrieving context: " ++ ("Search failed: " ++ e)) ++ sysTail⟩,
           ⟨Role.human, humanPre ++ user ++ humanTail⟩]) := by
    simp [chat_request, hturn]
  unfold chat
  rw [hreq]
  dsimp only
  rw [hok _]
  refine ⟨rfl, ?_⟩
  dsimp only
  rw [hctx]
  simp [hcond.1, hcond.2]

/-- C2 (amended): a completion failure during `chat` and a collaborator
failure during ingestion are caught and returned as structured failure
results (success flag plus error message) with the state unchanged and no
retry; `search_contracts`, however, wraps a retrieval failure in a new
exception and re-raises it, and a retrieval failure during `chat` is caught
but converted into an error-text context, after which `chat` returns a
structured SUCCESS result with `context_used = true`. -/
theorem collaborator_failure_policy
    (completionFail completionOk : List Msg → Except String Msg)
    (vsSearch : Except String (List Document))
    (md5hex : String → String) (split_text : String → List String)
    (store : List Document) (history : List Msg)
    (fp content user e : String) (ic : Bool) (resp : Msg)
    (hfail : ∀ msgs, completionFail msgs = Except.error e)
    (hok : ∀ msgs, completionOk msgs = Except.ok resp)
    (habs : ∀ d ∈ store, d.metadata.file_hash ≠ md5hex content) :
    ((chat completionFail vsSearch history user ic).1.success = false ∧
     (chat completionFail vsSearch history user ic).1.error = some ("Chat failed: " ++ e) ∧
     (chat completionFail vsSearch history user ic).2 = history) ∧
    ((ingest_contract md5hex split_text (some e) none store fp content).1.success = false ∧
     (ingest_contract md5hex split_text (some e) none store fp content).1.error
        = some ("Failed to ingest contract: " ++ e) ∧
     (ingest_contract md5hex split_text (some e) none store fp content).2 = store) ∧
    ((ingest_contract md5hex split_text none (some e) store fp content).1.success = false ∧
     (ingest_contract md5hex split_text none (some e) store fp content).1.error
        = some ("Failed to ingest contract: " ++ e) ∧
     (ingest_contract md5hex split_text none (some e) store fp content).2 = store) ∧
    (search_contracts (Except.error e) = Except.error ("Search failed: " ++ e)) ∧
    ((chat completionOk (Except.error e) history user true).1.success = true ∧
     (chat completionOk (Except.error e) history user true).1.context_used = some true) := by
  refine ⟨?_, ?_, ?_, rfl, chat_retrieval_failure_success completionOk history user e resp hok⟩
  · rcases chat_turn_messages_isSome vsSearch user ic with ⟨msgs, hmsgs⟩
    have hreq : chat_request vsSearch history user ic = some (lastTen history ++ msgs) := by
      simp [chat_request, hmsgs]
    unfold chat
    rw [hreq]
    dsimp only
    rw [hfail _]
    exact ⟨rfl, rfl, rfl⟩
  · unfold ingest_contract
    dsimp only
    exact ⟨rfl, rfl, rfl⟩
  · unfold ingest_contract
    dsimp only
    rw [process_file_hash, ssbh_isEmpty_true habs, if_pos rfl]
    exact ⟨rfl, rfl, rfl⟩

/-- Witness for C2 (amended) at concrete collaborators and inputs. -/
theorem collaborator_failure_policy_witness :
    ((chat (fun _ => Except.error "down") (Except.ok []) [] "q" false).1.success = false ∧
     (chat (fun _ => Except.error "down") (Except.ok []) [] "q" false).1.error
        = some ("Chat failed: " ++ "down") ∧
     (chat (fun _ => Except.error "down") (Except.ok []) [] "q" false).2 = []) ∧
    ((ingest_contract (fun s => toString s.length) (fun s => [s]) (some "down") none []
        "a.sol" "contract A").1.success = false ∧
     (ingest_contract (fun s => toString s.length) (fun s => [s]) (some "down") none []
        "a.sol" "contract A").1.error = some ("Failed to ingest contract: " ++ "down") ∧
     (ingest_contract (fun s => toString s.length) (fun s => [s]) (some "down") none []
        "a.sol" "contract A").2 = []) ∧
    ((ingest_contract (fun s => toString s.length) (fun s => [s]) none (some "down") []
        "a.sol" "contract A").1.success = false ∧
     (ingest_contract (fun s => toString s.length) (fun s => [s]) none (some "down") []
        "a.sol" "contract A").1.error = some ("Failed to ingest contract: " ++ "down") ∧
     (ingest_contract (fun s => toString s.length) (fun s => [s]) none (some "down") []
        "a.sol" "contract A").2 = []) ∧
    (search_contracts (Except.error "down") = Except.error ("Search failed: " ++ "down")) ∧
    ((chat (fun _ => Except.ok ⟨Role.ai, "analysis"⟩) (Except.error "down")
        [] "q" true).1.success = true ∧
     (chat (fun _ => Except.ok ⟨Role.ai, "analysis"⟩) (Except.error "down")
        [] "q" true).1.context_used = some true) :=
  collaborator_failure_policy (fun _ => Except.error "down")
    (fun _ => Except.ok ⟨Role.ai, "analysis"⟩) (Except.ok [])
    (fun s => toString s.length) (fun s => [s]) [] [] "a.sol" "contract A" "q" "down"
    false ⟨Role.ai, "analysis"⟩ (fun _ => rfl) (fun _ => rfl) (by simp)

/-- C2 counterexample: as stated, the claim is false — a failing vector
store makes `search_contracts` raise (return an exception, not a structured
failure result), and a failing vector store during `chat` yields a result
whose success flag is TRUE. -/
theorem search_failure_propagates_counterexample :
    search_contracts (Except.error "vector store down")
      = Except.error ("Search failed: vector store down") ∧
    (chat (fun _ => Except.ok ⟨Role.ai, "analysis"⟩) (Except.error "vector store down")
        [] "query" true).1.success = true ∧
    (chat (fun _ => Except.ok ⟨Role.ai, "analysis"⟩) (Except.error "vector store down")
        [] "query" true).1.context_used = some true :=
  ⟨rfl, chat_retrieval_failure_success (fun _ => Except.ok ⟨Role.ai, "analysis"⟩)
    [] "query" "vector store down" ⟨Role.ai, "analysis"⟩ (fun _ => rfl)⟩

/-! ## Claim C3: the access-control tag -/

theorem mem_ite_singleton {a b : String} {c : Bool} :
    (a ∈ if c then [b] else []) ↔ (c = true ∧ a = b) := by
  cases c <;> simp

theorem mem_patterns_access (content : String) :
    "access_control" ∈ identify_security_patterns content
      ↔ accessControlB (lowerChars content) = true := by
  unfold identify_security_patterns
  dsimp only
  simp only [List.mem_append, mem_ite_singleton]
  simp

theorem spaces_of_takeWhile {l : List Char} :
    ∀ c ∈ l.takeWhile isPySpace, isPySpace c = true := by
  intro c hc
  exact List.mem_takeWhile_imp hc

theorem dropWhile_not_head {t : List Char} {d : Char} (hd : isPySpace d = false) :
    (d :: t).dropWhile isPySpace = d :: t := by
  simp [List.dropWhile_cons, hd]

theorem eatPref_append_self (p r : List Char) : eatPref p (p ++ r) = some r :=
  eatPref_eq_some_iff.mpr rfl

theorem reqMsgSenderAt_iff {t : List Char} : reqMsgSenderAt t = true ↔ ReqShape t := by
  constructor
  · intro h
    unfold reqMsgSenderAt at h
    cases h1 : eatPref "require".data t with
    | none => rw [h1] at h; cases h
    | some l1 =>
      rw [h1] at h
      dsimp only at h
      cases h2 : eatPref ['('] (l1.dropWhile isPySpace) with
      | none => rw [h2] at h; cases h
      | some l2 =>
        rw [h2] at h
        dsimp only at h
        rcases eatPref_isSome_iff.mp h with ⟨r, hr⟩
        have ht : t = "require".data ++ l1 := eatPref_eq_some_iff.mp h1
        have h2' : l1.dropWhile isPySpace = '(' :: l2 := by
          have hh := eatPref_eq_some_iff.mp h2
          simpa using hh
        obtain ⟨s1, hs1all, hl1⟩ :
            ∃ s1, (∀ c ∈ s1, isPySpace c = true) ∧ l1 = s1 ++ '(' :: l2 :=
          ⟨l1.takeWhile isPySpace, spaces_of_takeWhile, by
            rw [← h2']
            exact (List.takeWhile_append_dropWhile isPySpace l1).symm⟩
        obtain ⟨s2, hs2all, hl2⟩ :
            ∃ s2, (∀ c ∈ s2, isPySpace c = true) ∧ l2 = s2 ++ ("msg.sender".data ++ r) :=
          ⟨l2.takeWhile isPySpace, spaces_of_takeWhile, by
            conv_lhs => rw [← List.takeWhile_append_dropWhile (p := isPySpace) (l := l2)]
            congr 1
            exact hr.symm⟩
        refine ⟨s1, s2, r, hs1all, hs2all, ?_⟩
        rw [ht, hl1, hl2]
        simp [List.append_assoc]
  · rintro ⟨s1, s2, r, hs1, hs2, ht⟩
    unfold reqMsgSenderAt
    rw [ht, List.append_assoc, eatPref_append_self]
    dsimp only
    rw [dropWhile_spaces_append hs1, dropWhile_not_head (by decide)]
    rw [show eatPref ['('] ('(' :: (s2 ++ "msg.sender".data ++ r))
        = some (s2 ++ "msg.sender".data ++ r) from rfl]
    dsimp only
    rw [List.append_assoc, dropWhile_spaces_append hs2,
      show ("msg.sender".data ++ r).dropWhile isPySpace = "msg.sender".data ++ r from rfl,
      eatPref_append_self]
    rfl

theorem accessControlB_iff (content : String) :
    accessControlB (lowerChars content) = true ↔ AccessControlled content := by
  unfold accessControlB AccessControlled
  rw [Bool.or_eq_true, Bool.or_eq_true, containsSub_iff, containsSub_iff, existsAt_iff]
  constructor
  · rintro ((⟨t, ht, hp⟩ | ⟨t, ht, hp⟩) | ⟨t, ht, hp⟩)
    · exact ⟨t, ht, Or.inl hp⟩
    · exact ⟨t, ht, Or.inr (Or.inl hp)⟩
    · exact ⟨t, ht, Or.inr (Or.inr (reqMsgSenderAt_iff.mp hp))⟩
  · rintro ⟨t, ht, (hp | hp | hp)⟩
    · exact Or.inl (Or.inl ⟨t, ht, hp⟩)
    · exact Or.inl (Or.inr ⟨t, ht, hp⟩)
    · exact Or.inr ⟨t, ht, reqMsgSenderAt_iff.mpr hp⟩

/-- C3 (amended): for every input text, the access-control tag is present in
`identify_security_patterns` iff the text contains, case-insensitively,
`onlyOwner`, `onlyAdmin`, or `require` followed by optional whitespace, an
open parenthesis, optional whitespace, and the literal `msg.sender` (no
whitespace around the dot). -/
theorem access_control_tag_iff (content : String) :
    "access_control" ∈ identify_security_patterns content ↔ AccessControlled content :=
  (mem_patterns_access content).trans (accessControlB_iff content)

/-- C3 counterexample: the claim as stated is false in both directions it
fixes — a text containing only `onlyAdmin` (neither of the claim's two
patterns) still receives the access-control tag, and a text with whitespace
around the dot of `msg.sender` (which the claim says is matched) receives no
tag at all. -/
theorem access_control_claim_counterexample :
    identify_security_patterns "onlyAdmin" = ["access_control"] ∧
    identify_security_patterns "require( msg . sender )" = [] := by
  constructor <;> decide

/-! ## Claim C5: pragma extraction -/

theorem drop_takeWhile_length (p : Char → Bool) (l : List Char) :
    l.drop (l.takeWhile p).length = l.dropWhile p := by
  induction l with
  | nil => rfl
  | cons c cs ih =>
    by_cases hc : p c
    · simp [List.takeWhile_cons, List.dropWhile_cons, hc, ih]
    · simp [List.takeWhile_cons, List.dropWhile_cons, hc]

theorem length_ne_zero_of_ne_nil {l : List Char} (h : l ≠ []) : ¬ l.length = 0 := by
  intro h0
  exact h (List.length_eq_zero.mp h0)

theorem pragmaAt_shape (s1 s2 v r : List Char)
    (hs1 : ∀ c ∈ s1, isPySpace c = true) (hs2 : ∀ c ∈ s2, isPySpace c = true)
    (hs1ne : s1 ≠ []) (hs2ne : s2 ≠ [])
    (hv : v ≠ []) (hsc : ';' ∉ v)
    (hhead : v.takeWhile isPySpace = []) :
    pragmaAt ("pragma".data ++ (s1 ++ ('s' :: ("olidity".data ++ (s2 ++ (v ++ ';' :: r))))))
      = some v := by
  obtain ⟨c, v', rfl⟩ : ∃ c v', v = c :: v' := by
    cases v with
    | nil => exact absurd rfl hv
    | cons c v' => exact ⟨c, v', rfl⟩
  have hsc' : ∀ x ∈ c :: v', (fun ch => decide (ch ≠ ';')) x = true := by
    intro x hx
    simp only [decide_eq_true_eq]
    intro he
    subst he
    exact hsc hx
  have hcsp : isPySpace c = false := by
    by_cases hc : isPySpace c = true
    · rw [List.takeWhile_cons, if_pos hc] at hhead
      cases hhead
    · simpa using hc
  unfold pragmaAt
  rw [eatPref_append_self]
  dsimp only
  rw [takeWhile_append_not hs1 (by decide)]
  rw [if_neg (length_ne_zero_of_ne_nil hs1ne)]
  rw [List.drop_left]
  rw [show ('s' :: ("olidity".data ++ (s2 ++ (c :: v' ++ ';' :: r))))
      = "solidity".data ++ (s2 ++ (c :: v' ++ ';' :: r)) from rfl]
  rw [eatPref_append_self]
  dsimp only
  rw [show (s2 ++ (c :: v' ++ ';' :: r)) = s2 ++ c :: (v' ++ ';' :: r) from by simp]
  rw [takeWhile_append_not hs2 hcsp]
  rw [if_neg (length_ne_zero_of_ne_nil hs2ne)]
  rw [List.drop_left]
  rw [show (c :: (v' ++ ';' :: r)) = (c :: v') ++ ';' :: r from rfl]
  rw [takeWhile_append_not hsc' (by decide)]
  rw [show List.isEmpty (c :: v') = false from rfl]
  rw [if_neg (by simp)]
  rw [List.drop_left]
  rw [if_pos (show ((';' :: r : List Char).head?) = some ';' from rfl)]

theorem head_semi_decomp {B : List Char} (h : B.head? = some ';') :
    B = ';' :: B.tail := by
  cases B with
  | nil => cases h
  | cons b bs =>
    simp only [List.head?_cons, Option.some.injEq] at h
    rw [h]
    rfl

theorem pragmaAt_sound {t g : List Char} (h : pragmaAt t = some g) : PragmaShape t := by
  unfold pragmaAt at h
  cases h1 : eatPref "pragma".data t with
  | none => rw [h1] at h; cases h
  | some l1 =>
    rw [h1] at h
    dsimp only at h
    rw [drop_takeWhile_length isPySpace l1] at h
    by_cases hn1 : (l1.takeWhile isPySpace).length = 0
    · rw [if_pos hn1] at h; cases h
    rw [if_neg hn1] at h
    cases h2 : eatPref "solidity".data (l1.dropWhile isPySpace) with
    | none => rw [h2] at h; cases h
    | some l2 =>
      rw [h2] at h
      dsimp only at h
      rw [drop_takeWhile_length isPySpace l2] at h
      set S1 := l1.takeWhile isPySpace with hS1
      have ht : t = "pragma".data ++ l1 := eatPref_eq_some_iff.mp h1
      have hl1 : l1 = S1 ++ ("solidity".data ++ l2) := by
        conv_lhs => rw [← List.takeWhile_append_dropWhile (p := isPySpace) (l := l1)]
        rw [eatPref_eq_some_iff.mp h2]
      have hs1 : ∀ c ∈ S1, isPySpace c = true :=
        fun c hc => List.mem_takeWhile_imp hc
      have hs1ne : S1 ≠ [] :=
        fun hnil => hn1 (by rw [hnil]; rfl)
      set A := l2.takeWhile isPySpace with hA
      set B := l2.dropWhile isPySpace with hBdef
      have hAB : l2 = A ++ B :=
        (List.takeWhile_append_dropWhile (p := isPySpace) (l := l2)).symm
      have hs2 : ∀ c ∈ A, isPySpace c = true :=
        fun c hc => List.mem_takeWhile_imp hc
      have hlenAB : A.length + B.length = l2.length := by
        have hc := congrArg List.length hAB
        rw [List.length_append] at hc
        omega
      by_cases hn2 : A.length = 0
      · rw [if_pos hn2] at h; cases h
      rw [if_neg hn2] at h
      by_cases hbody : (B.takeWhile (fun c => decide (c ≠ ';'))).isEmpty = true
      · rw [if_pos hbody] at h
        by_cases hcond : 2 ≤ A.length ∧ B.head? = some ';'
        · have hB : B = ';' :: B.tail := head_semi_decomp hcond.2
          refine ⟨S1, A.take (A.length - 1), A.drop (A.length - 1), B.tail,
            hs1, ?_, hs1ne, ?_, ?_, ?_, ?_⟩
          · intro c hc
            exact hs2 c (List.take_subset _ _ hc)
          · have hlen : (A.take (A.length - 1)).length = A.length - 1 := by
              rw [List.length_take]
              omega
            intro hnil
            rw [hnil] at hlen
            simp at hlen
            omega
          · have hlen : (A.drop (A.length - 1)).length = 1 := by
              rw [List.length_drop]
              omega
            intro hnil
            rw [hnil] at hlen
            cases hlen
          · intro hmem
            have hsp : isPySpace ';' = true := hs2 _ (List.drop_subset _ _ hmem)
            cases hsp
          · have hl2 : l2 = A.take (A.length - 1)
                ++ (A.drop (A.length - 1) ++ ';' :: B.tail) := by
              conv_lhs => rw [hAB]
              rw [← hB, ← List.append_assoc]
              congr 1
              exact (List.take_append_drop _ _).symm
            rw [ht, hl1, hl2]
            simp [List.append_assoc]
            rw [← List.append_assoc, List.take_append_drop]
        · rw [if_neg hcond] at h; cases h
      · rw [if_neg hbody] at h
        by_cases hsemi : (B.drop ((B.takeWhile (fun c => decide (c ≠ ';'))).length)).head?
            = some ';'
        · set V := B.takeWhile (fun c => decide (c ≠ ';')) with hV
          rw [drop_takeWhile_length] at hsemi
          have hBB : B.dropWhile (fun c => decide (c ≠ ';'))
              = ';' :: (B.dropWhile (fun c => decide (c ≠ ';'))).tail :=
            head_semi_decomp hsemi
          refine ⟨S1, A, V, (B.dropWhile (fun c => decide (c ≠ ';'))).tail,
            hs1, hs2, hs1ne,
            fun hnil => hn2 (by rw [hnil]; rfl), ?_, ?_, ?_⟩
          · intro hnil
            exact hbody (by rw [hnil]; rfl)
          · intro hmem
            have hdec := List.mem_takeWhile_imp (hV ▸ hmem)
            simp at hdec
          · have hl2 : l2 = A ++ (V ++ ';' :: (B.dropWhile (fun c => decide (c ≠ ';'))).tail) := by
              conv_lhs => rw [hAB]
              congr 1
              rw [← hBB]
              exact (List.takeWhile_append_dropWhile _ _).symm
            rw [ht, hl1, hl2]
            simp [List.append_assoc]
        · rw [if_neg hsemi] at h; cases h

theorem searchFirst_first {m : List Char → Option α} {l t : List Char} {g : α}
    (ht : t <:+ l) (hm : m t = some g)
    (hlonger : ∀ t', t' <:+ l → t.length < t'.length → m t' = none) :
    searchFirst m l = some g := by
  induction l with
  | nil =>
    rw [List.suffix_nil.mp ht] at hm
    simpa [searchFirst] using hm
  | cons c rest ih =>
    cases hmc : m (c :: rest) with
    | some g' =>
      rcases List.suffix_cons_iff.mp ht with heq | hsuf
      · rw [searchFirst_cons_some hmc]
        rw [heq] at hm
        rw [hm] at hmc
        exact hmc.symm
      · have hlen : t.length < (c :: rest).length := by
          have := hsuf.length_le
          simp only [List.length_cons]
          omega
        rw [hlonger _ (List.suffix_refl _) hlen] at hmc
        cases hmc
    | none =>
      rw [searchFirst_cons_none hmc]
      rcases List.suffix_cons_iff.mp ht with heq | hsuf
      · rw [heq] at hm
        rw [hm] at hmc
        cases hmc
      · exact ih hsuf
          (fun t' ht' hlen => hlonger t' (ht'.trans (List.suffix_cons c rest)) hlen)

theorem pragmaShape_pref {t : List Char} (hs : PragmaShape t) : "pragma".data <+: t := by
  rcases hs with ⟨s1, s2, v, r, _, _, _, _, _, _, heq⟩
  rw [heq]
  simp [List.append_assoc]

/-- C5: (a) for every text of the form `pre ++ "pragma solidity " ++ v ++ ";"
++ post` where `v` is a nonempty version expression (no `;`, no leading
whitespace) and no pragma-regex match starts inside `pre`, the extracted
pragma is exactly the stripped `v` of that first occurrence; (b) for every
text in which no suffix matches the pragma regex shape, the pragma is
absent. -/
theorem pragma_first_match_extraction :
    (∀ pre v post : List Char, v ≠ [] → ';' ∉ v → v.takeWhile isPySpace = [] →
      (∀ t ∈ (pre ++ ("pragma solidity ".data ++ (v ++ ';' :: post))).tails,
        ("pragma solidity ".data ++ (v ++ ';' :: post)).length < t.length →
        pragmaAt t = none) →
      (extract_metadata
          (String.mk (pre ++ ("pragma solidity ".data ++ (v ++ ';' :: post))))).pragma
        = some (String.mk (pyStrip v))) ∧
    (∀ content : String, (∀ t, t <:+ content.data → ¬ PragmaShape t) →
      (extract_metadata content).pragma = none) := by
  constructor
  · intro pre v post hv hsc hhead hfirst
    have hcan : pragmaAt ("pragma solidity ".data ++ (v ++ ';' :: post)) = some v := by
      rw [show ("pragma solidity ".data ++ (v ++ ';' :: post))
          = "pragma".data ++
              ([' '] ++ ('s' :: ("olidity".data ++ ([' '] ++ (v ++ ';' :: post))))) from rfl]
      exact pragmaAt_shape [' '] [' '] v post (by decide) (by decide)
        (by decide) (by decide) hv hsc hhead
    have hsf : searchFirst pragmaAt
        (pre ++ ("pragma solidity ".data ++ (v ++ ';' :: post))) = some v :=
      searchFirst_first (List.suffix_append pre _) hcan
        (fun t' ht' hlen => hfirst t' ((List.mem_tails _ _).mpr ht') hlen)
    unfold extract_metadata
    dsimp only
    show Option.map (fun g => String.mk (pyStrip g))
        (searchFirst pragmaAt (pre ++ ("pragma solidity ".data ++ (v ++ ';' :: post))))
      = some (String.mk (pyStrip v))
    rw [hsf]
    rfl
  · intro content hnone
    unfold extract_metadata
    dsimp only
    rw [searchFirst_eq_none (fun t ht => ?_)]
    · rfl
    · cases hp : pragmaAt t with
      | none => rfl
      | some g => exact absurd (pragmaAt_sound hp) (hnone t ht)

/-- Witness for C5: a pragma preceded by other text is extracted from its
first occurrence, and a text with no pragma statement yields none. -/
theorem pragma_first_match_extraction_witness :
    (extract_metadata (String.mk ("x ".data ++
        ("pragma solidity ".data ++ ("^0.8.0".data ++ ';' :: " contract C".data))))).pragma
      = some (String.mk (pyStrip "^0.8.0".data)) ∧
    (extract_metadata "hello").pragma = none := by
  have hall : ∀ t ∈ ("hello" : String).data.tails, subAt "pragma".data t = false := by decide
  refine ⟨pragma_first_match_extraction.1 "x ".data "^0.8.0".data " contract C".data
      (by decide) (by decide) (by decide) (by decide), ?_⟩
  refine pragma_first_match_extraction.2 "hello" (fun t ht hshape => ?_)
  have hpref := pragmaShape_pref hshape
  have hfalse := hall t ((List.mem_tails _ _).mpr ht)
  rw [subAt_iff.mpr hpref] at hfalse
  cases hfalse

/-! ## Claim C6: totality of the extractor, empty results on absent patterns -/

theorem tails_all_imp {f : List Char → Bool} {l : List Char}
    (h : l.tails.all f = true) : ∀ t, t <:+ l → f t = true := by
  intro t ht
  rw [List.all_eq_true] at h
  exact h t ((List.mem_tails _ _).mpr ht)

/-- C6: the extractor is a total function: for every input string — however
malformed — each matcher that matches at no position yields the empty result
for its field (empty list, or `none` for the pragma), never an error. -/
theorem parser_absence_yields_empty (content : String) :
    ((lowerChars content).tails.all (fun t => !securityAt t) = true →
      identify_security_patterns content = []) ∧
    (content.data.tails.all (fun t => (pragmaAt t).isNone) = true →
      (extract_metadata content).pragma = none) ∧
    (content.data.tails.all (fun t => (importAt t).isNone) = true →
      (extract_metadata content).imports = []) ∧
    (content.data.tails.all (fun t => (contractAt t).isNone) = true →
      (extract_metadata content).contracts = []) ∧
    (content.data.tails.all (fun t => (functionAt t).isNone) = true →
      (extract_metadata content).functions = []) ∧
    (content.data.tails.all (fun t => (modifierAt t).isNone) = true →
      (extract_metadata content).modifiers = []) ∧
    (content.data.tails.all (fun t => (eventAt t).isNone) = true →
      (extract_metadata content).events = []) := by
  have hscan : ∀ (m : List Char → Option (List Char × List Char)),
      content.data.tails.all (fun t => (m t).isNone) = true →
      scanAll m content.data = [] := by
    intro m hm
    refine scanAll_eq_nil (fun t ht => ?_)
    have := tails_all_imp hm t ht
    exact Option.isNone_iff_eq_none.mp this
  refine ⟨?_, ?_, ?_, ?_, ?_, ?_, ?_⟩
  · intro h
    have hsec : ∀ t, t <:+ lowerChars content → securityAt t = false := by
      intro t ht
      have hh := tails_all_imp h t ht
      simpa using hh
    have hmono : ∀ (p : List Char → Bool), (∀ t, p t = true → securityAt t = true) →
        existsAt p (lowerChars content) = false := by
      intro p hp
      rw [existsAt_eq_false_iff]
      intro t ht
      by_cases hb : p t = true
      · exact absurd (hp t hb) (by simp [hsec t ht])
      · simpa using hb
    have c01 : containsSub "nonreentrant".data (lowerChars content) = false :=
      hmono _ (fun t hp => by simp [securityAt, hp])
    have c02 : containsSub "reentrancyguard".data (lowerChars content) = false :=
      hmono _ (fun t hp => by simp [securityAt, hp])
    have c03 : containsSub "onlyowner".data (lowerChars content) = false :=
      hmono _ (fun t hp => by simp [securityAt, hp])
    have c04 : containsSub "onlyadmin".data (lowerChars content) = false :=
      hmono _ (fun t hp => by simp [securityAt, hp])
    have c05 : existsAt reqMsgSenderAt (lowerChars content) = false :=
      hmono _ (fun t hp => by simp [securityAt, hp])
    have c06 : containsSub "safemath".data (lowerChars content) = false :=
      hmono _ (fun t hp => by simp [securityAt, hp])
    have c07 : containsSub ".add(".data (lowerChars content) = false :=
      hmono _ (fun t hp => by simp [securityAt, hp])
    have c08 : containsSub ".sub(".data (lowerChars content) = false :=
      hmono _ (fun t hp => by simp [securityAt, hp])
    have c09 : containsSub ".mul(".data (lowerChars content) = false :=
      hmono _ (fun t hp => by simp [securityAt, hp])
    have c10 : containsSub ".div(".data (lowerChars content) = false :=
      hmono _ (fun t hp => by simp [securityAt, hp])
    have c11 : containsSub ".call(".data (lowerChars content) = false :=
      hmono _ (fun t hp => by simp [securityAt, hp])
    have c12 : containsSub ".delegatecall(".data (lowerChars content) = false :=
      hmono _ (fun t hp => by simp [securityAt, hp])
    have c13 : containsSub ".staticcall(".data (lowerChars content) = false :=
      hmono _ (fun t hp => by simp [securityAt, hp])
    have c14 : containsSub "block.timestamp".data (lowerChars content) = false :=
      hmono _ (fun t hp => by simp [securityAt, hp])
    have c15 : existsAt nowSpaceAt (lowerChars content) = false :=
      hmono _ (fun t hp => by simp [securityAt, hp])
    have c16 : containsSub "block.difficulty".data (lowerChars content) = false :=
      hmono _ (fun t hp => by simp [securityAt, hp])
    have c17 : containsSub "blockhash(".data (lowerChars content) = false :=
      hmono _ (fun t hp => by simp [securityAt, hp])
    have c18 : existsAt overflowAt (lowerChars content) = false :=
      hmono _ (fun t hp => by simp [securityAt, hp])
    unfold identify_security_patterns
    dsimp only
    rw [show reentrancyGuardB (lowerChars content) = false from by
        rw [reentrancyGuardB, c01, c02]; rfl,
      show accessControlB (lowerChars content) = false from by
        rw [accessControlB, c03, c04, c05]; rfl,
      show safeMathB (lowerChars content) = false from by
        rw [safeMathB, c06, c07, c08, c09, c10]; rfl,
      show externalCallsB (lowerChars content) = false from by
        rw [externalCallsB, c11, c12, c13]; rfl,
      show timeDependencyB (lowerChars content) = false from by
        rw [timeDependencyB, c14, c15]; rfl,
      show randomnessB (lowerChars content) = false from by
        rw [randomnessB, c16, c17]; rfl,
      show overflowChecksB (lowerChars content) = false from by
        rw [overflowChecksB, c18]]
    rfl
  · intro h
    unfold extract_metadata
    dsimp only
    rw [searchFirst_eq_none (fun t ht =>
      Option.isNone_iff_eq_none.mp (tails_all_imp h t ht))]
    rfl
  · intro h
    unfold extract_metadata
    dsimp only
    rw [hscan importAt h]
    rfl
  · intro h
    unfold extract_metadata
    dsimp only
    rw [hscan contractAt h]
    rfl
  · intro h
    unfold extract_metadata
    dsimp only
    rw [hscan functionAt h]
    rfl
  · intro h
    unfold extract_metadata
    dsimp only
    rw [hscan modifierAt h]
    rfl
  · intro h
    unfold extract_metadata
    dsimp only
    rw [hscan eventAt h]
    rfl

/-- Witness for C6 at the non-Solidity input string. -/
theorem parser_absence_yields_empty_witness :
    identify_security_patterns "hello world" = [] ∧
    (extract_metadata "hello world").pragma = none ∧
    (extract_metadata "hello world").imports = [] ∧
    (extract_metadata "hello world").contracts = [] ∧
    (extract_metadata "hello world").functions = [] ∧
    (extract_metadata "hello world").modifiers = [] ∧
    (extract_metadata "hello world").events = [] := by
  have h := parser_absence_yields_empty "hello world"
  exact ⟨h.1 (by decide), h.2.1 (by decide), h.2.2.1 (by decide), h.2.2.2.1 (by decide),
    h.2.2.2.2.1 (by decide), h.2.2.2.2.2.1 (by decide), h.2.2.2.2.2.2 (by decide)⟩

end AuditBot
